import Mathlib

/-!
Shallow embedding of `keras_ocr/datasets.py` (COCO-Text / Born-Digital dataset
assemblers and the recognizer sample generator), together with theorems that
settle the specification claims about it.

External collaborators (network downloads, zip extraction, image decoding,
numpy arrays, the ambient random state) are modelled explicitly:
  * file-system / network side effects are recorded as an `Action` trace;
  * file contents fetched from the world (label files, the parsed COCO JSON)
    are parameters of the embedded functions;
  * the ambient random state is an oracle parameter (a stream of raw values /
    permutations);
  * Python's heap aliasing for the label list is modelled by a small `Store`
    so that in-place `random.shuffle` and `list.copy()` keep their meaning.
-/

namespace KerasOcr

/-- Python single-char membership `c in s` for a string `s` ( `in` on strings
is substring search, which for a single character is character membership). -/
def pyCharIn (c : Char) (alphabet : List Char) : Bool :=
  alphabet.contains c

/-- Python substring test `needle in haystack` on strings: an empty needle is
always contained; otherwise the needle must occur as a contiguous run. -/
def pyIn (needle haystack : String) : Bool :=
  needle.toList.isEmpty || haystack.toList.tails.any (fun t => needle.toList.isPrefixOf t)

/-- Characters stripped by Python `str.strip()` with no argument. -/
def isPySpace (c : Char) : Bool :=
  c = ' ' || c = '\t' || c = '\n' || c = '\r' || c = '\x0b' || c = '\x0c'

/-- Python `str.strip()` on a character list: remove leading and trailing
whitespace. -/
def pyStrip (cs : List Char) : List Char :=
  ((cs.dropWhile isPySpace).reverse.dropWhile isPySpace).reverse

/-- Python `s.split(sep)` for a single-character separator `sep`.
`splitOnChar ',' "a,b"` is `["a","b"]`; an empty input gives `[[]]`. -/
def splitOnChar (sep : Char) : List Char → List (List Char)
  | [] => [[]]
  | c :: cs =>
    let r := splitOnChar sep cs
    if c = sep then [] :: r
    else
      match r with
      | [] => [[c]]
      | g :: gs => (c :: g) :: gs

/-- Python `','.join(groups)`. -/
def joinComma : List (List Char) → List Char
  | [] => []
  | [g] => g
  | g :: gs => g ++ ',' :: joinComma gs

/-- Python slice `s[1:-1]`: drop the first and the last character. -/
def slice1m1 (cs : List Char) : List Char :=
  (cs.drop 1).dropLast

/-- `os.path.join` for the POSIX cases exercised here: an absolute second
component replaces the first; otherwise the components are joined with a
single `/` (none inserted after a trailing `/` or an empty first part). -/
def osPathJoin (a b : String) : String :=
  if b.toList.headD ' ' = '/' then b
  else if a.toList.isEmpty || a.toList.getLast? = some '/' then a ++ b
  else a ++ "/" ++ b

/-- `np.random.randint(low, high)` draws uniformly from the half-open
interval `[low, high)`.  We expose the draw as a deterministic function of a
raw uniform natural `raw` supplied by the random oracle: the result is
`low + raw % (high - low)`, which ranges exactly over `[low, high)`. -/
def npRandint (low high : Int) (raw : Nat) : Int :=
  low + ((raw % (high - low).toNat : Nat) : Int)

/-- `''.join([c for c in text if c in alphabet])`: keep exactly the characters
of `text` that lie in `alphabet`, preserving their relative order. -/
def pyFilter (alphabet : List Char) (text : String) : String :=
  String.mk (text.toList.filter (fun c => pyCharIn c alphabet))

/-- A normalized label entry `(filepath, box, text)`.  `box` is `none` for
pre-cropped datasets (Born-Digital) and a polygon (list of `(x, y)` pairs)
for COCO-Text. -/
structure Entry where
  filepath : String
  box : Option (List (Int × Int))
  text : String
deriving DecidableEq, Repr

/-- Recorded world side effects of the assemblers. -/
inductive Action where
  | download (url : String) (cache_dir : String)
  | extractZip (dest : String)
deriving DecidableEq, Repr

/-- Errors raised by the module; `assert` failures play the role of the
spec's `InvalidArgument`. -/
inductive PyError where
  | assertionError (msg : String)
deriving DecidableEq, Repr

/-- The default cache root `os.path.expanduser(os.path.join('~', '.keras-ocr'))`
(`~` is resolved by the OS at run time; we keep it symbolic). -/
def homeCacheDir : String := osPathJoin "~" ".keras-ocr"

/-! ## Born-Digital: label parsing and assembly -/

/-- One line of `_read_born_digital_labels_file`:
`l.strip().split(',')`, then
`(os.path.join(image_folder, segments[0]), None, ','.join(segments[1:]).strip()[1:-1])`. -/
def parseLineChars (image_folder : String) (cs : List Char) : Entry :=
  let segments := splitOnChar ',' (pyStrip cs)
  { filepath := osPathJoin image_folder (String.mk (segments.headD []))
    box := none
    text := String.mk (slice1m1 (pyStrip (joinComma segments.tail))) }

/-- `_read_born_digital_labels_file`: the labels file is given as its list of
lines. -/
def read_born_digital_labels_file (lines : List String) (image_folder : String) :
    List Entry :=
  lines.map (fun l => parseLineChars image_folder l.toList)

def bornTrainZipURL : String :=
  "https://storage.googleapis.com/keras-ocr/borndigital/Challenge1_Training_Task3_Images_GT.zip"
def bornTestZipURL : String :=
  "https://storage.googleapis.com/keras-ocr/borndigital/Challenge1_Test_Task3_Images.zip"
def bornTestGtURL : String :=
  "https://storage.googleapis.com/keras-ocr/borndigital/Challenge1_Test_Task3_GT.txt"

/-- `get_born_digital_recognizer_dataset`.  The contents of the two
ground-truth files are world parameters (`trainGt`, `testGt`, as lists of
lines).  Note the source performs no validation of `split` whatsoever: a
split outside `{train, test, traintest}` skips both branches and returns an
empty dataset with no I/O. -/
def get_born_digital_recognizer_dataset (split : String) (cache_dir : Option String)
    (trainGt testGt : List String) : List Action × Except PyError (List Entry) :=
  let cache := cache_dir.getD homeCacheDir
  let main_dir := osPathJoin cache "borndigital"
  let (acts1, data1) :=
    if split = "train" ∨ split = "traintest" then
      let train_dir := osPathJoin main_dir "train"
      ([Action.download bornTrainZipURL main_dir, Action.extractZip train_dir],
       read_born_digital_labels_file trainGt train_dir)
    else ([], [])
  let (acts2, data2) :=
    if split = "test" ∨ split = "traintest" then
      let test_dir := osPathJoin main_dir "test"
      ([Action.download bornTestZipURL main_dir, Action.extractZip test_dir,
        Action.download bornTestGtURL test_dir],
       read_born_digital_labels_file testGt test_dir)
    else ([], [])
  (acts1 ++ acts2, Except.ok (data1 ++ data2))

/-! ## COCO-Text assembler -/

/-- Per-image record of the COCO JSON (`labels['imgs'][id]`): the fields the
code reads. -/
structure CocoImg where
  img_set : String
  file_name : String
deriving DecidableEq, Repr

/-- Per-annotation record of the COCO JSON (`labels['anns'][id]`). -/
structure CocoAnn where
  mask : List Int
  utf8_string : String
  language : String
  legibility : String
deriving DecidableEq, Repr

/-- The parsed `cocotext.v2.json`, keeping the Python dicts as ordered
association lists (Python dicts preserve insertion order). -/
structure CocoLabels where
  imgs : List (String × CocoImg)
  imgToAnns : List (String × List Nat)
  anns : List (String × CocoAnn)
deriving DecidableEq, Repr

def defaultImg : CocoImg := ⟨"", ""⟩
def defaultAnn : CocoAnn := ⟨[], "", "", ""⟩

/-- Python dict lookup on an association list. -/
def dictLookup {α : Type} (d : List (String × α)) (k : String) : Option α :=
  List.lookup k d

/-- `np.array(mask).reshape(-1, 2)`: pair up consecutive coordinates.
(numpy raises on an odd-length list; the trailing element cannot occur for
well-formed COCO masks.) -/
def reshape2 : List Int → List (Int × Int)
  | x :: y :: rest => (x, y) :: reshape2 rest
  | _ => []

def cocoSplits : List String := ["train", "val", "trainval"]

def cocotextZipURL : String :=
  "https://github.com/bgshih/cocotext/releases/download/dl/cocotext.v2.zip"

def cocoImgURL (filename : String) : String :=
  "http://images.cocodataset.org/train2014/" ++ filename

def cocoMainDir (cache_dir : Option String) : String :=
  osPathJoin (cache_dir.getD homeCacheDir) "coco-text"

def cocoImagesDir (cache_dir : Option String) : String :=
  osPathJoin (cocoMainDir cache_dir) "images"

/-- `[cocoid for cocoid, data in labels['imgs'].items() if data['set'] in split]`
(note `in` here is a substring test, so `'train' in 'trainval'` holds). -/
def selectedIdsOf (L : CocoLabels) (split : String) : List String :=
  (L.imgs.filter (fun p => pyIn p.2.img_set split)).map Prod.fst

/-- The `if limit:` block.  `limit` is falsy for `None` and `0`.  When truthy:
truncate the id list (`selected_ids[:limit]`), restrict `imgToAnns` and
`imgs` to the kept ids, and filter `anns` by
`set(flatten(list(labels.values())))` — flattening the top-level dict values
iterates each inner dict, yielding its keys, so the key set always contains
every key of `anns` and that last filter keeps everything. -/
def applyLimit (L : CocoLabels) (ids : List String) (limit : Option Nat) :
    List String × CocoLabels :=
  match limit with
  | none => (ids, L)
  | some 0 => (ids, L)
  | some (n + 1) =>
    let ids' := ids.take (n + 1)
    let imgToAnns' := L.imgToAnns.filter (fun p => ids'.contains p.1)
    let imgs' := L.imgs.filter (fun p => ids'.contains p.1)
    let annKeys := imgs'.map Prod.fst ++ imgToAnns'.map Prod.fst ++ L.anns.map Prod.fst
    let anns' := L.anns.filter (fun p => annKeys.contains p.1)
    (ids', { imgs := imgs', imgToAnns := imgToAnns', anns := anns' })

/-- `selected_filenames = [labels['imgs'][cocoid]['file_name'] for cocoid in selected_ids]`. -/
def cocoFilenames (L : CocoLabels) (ids : List String) : List String :=
  ids.map (fun cocoid => ((dictLookup L.imgs cocoid).getD defaultImg).file_name)

/-- The final assembly loop: for each selected id, in list order, resolve its
annotation ids, apply the `english_only` / `legible_only` filters, and emit
`(filepath, reshaped mask, utf8_string)` entries. -/
def assembleCoco (L : CocoLabels) (images_dir : String) (ids filenames : List String)
    (legible_only english_only : Bool) : List Entry :=
  ids.flatMap (fun selected_id =>
    let filepath := osPathJoin images_dir (filenames.getD (ids.indexOf selected_id) "")
    ((dictLookup L.imgToAnns selected_id).getD []).filterMap (fun annIdx =>
      let ann := (dictLookup L.anns (toString annIdx)).getD defaultAnn
      if english_only && !(ann.language == "english") then none
      else if legible_only && !(ann.legibility == "legible") then none
      else some { filepath := filepath, box := some (reshape2 ann.mask),
                  text := ann.utf8_string }))

/-- Result of `get_cocotext_recognizer_dataset`: the dataset, with the raw
labels object and image directory attached when `return_raw_labels` is set. -/
inductive CocoOut where
  | plain (dataset : List Entry)
  | withRaw (dataset : List Entry) (labels : CocoLabels) (images_dir : String)
deriving DecidableEq, Repr

def cocoOutDataset : CocoOut → List Entry
  | .plain d => d
  | .withRaw d _ _ => d

/-- `get_cocotext_recognizer_dataset`.  The parsed labels JSON `L` is a world
parameter; `comp` reorders the per-image download actions, standing for the
unspecified completion order of the concurrent fetches (`as_completed`).
The leading `assert split in ['train', 'val', 'trainval']` runs before any
I/O or cache-directory computation. -/
def get_cocotext_recognizer_dataset (L : CocoLabels) (split : String)
    (cache_dir : Option String) (limit : Option Nat)
    (legible_only english_only return_raw_labels : Bool)
    (comp : List Action → List Action) : List Action × Except PyError CocoOut :=
  if split ∈ cocoSplits then
    let main_dir := cocoMainDir cache_dir
    let images_dir := cocoImagesDir cache_dir
    let idsL := applyLimit L (selectedIdsOf L split) limit
    let selected_filenames := cocoFilenames idsL.2 idsL.1
    let dataset := assembleCoco idsL.2 images_dir idsL.1 selected_filenames
      legible_only english_only
    (Action.download cocotextZipURL main_dir ::
       comp (selected_filenames.map (fun fn => Action.download (cocoImgURL fn) images_dir)),
     Except.ok (if return_raw_labels then CocoOut.withRaw dataset idsL.2 images_dir
                else CocoOut.plain dataset))
  else ([], Except.error (PyError.assertionError ("Unsupported split: " ++ split)))

/-! ## Sample generator (`get_recognizer_image_generator`)

`labels = labels.copy()` followed by in-place `random.shuffle(labels)` is
mutation of a private heap cell, so we model the Python heap of label lists
as a `Store` (addresses are indices).  The generator allocates a fresh cell
for its working copy at construction and only ever writes that cell. -/

/-- A heap of label lists; an address is an index into the list of cells. -/
abbrev Store := List (List Entry)

def storeRead (st : Store) (r : Nat) : List Entry := st.getD r []

def storeWrite (st : Store) (r : Nat) (v : List Entry) : Store := st.set r v

/-- `sum(any(c not in alphabet for c in text) for _, _, text in labels)`:
the advisory count printed at generator construction. -/
def n_with_illegal_characters (alphabet : List Char) (labels : List Entry) : Nat :=
  (labels.filter (fun e => e.text.toList.any (fun c => !(pyCharIn c alphabet)))).length

/-- The external collaborators the generator body calls (`tools.read`,
`tools.warpBox`, `tools.read_and_fit`, `augmenter.augment_image`), abstract
over the image representation. -/
structure Renderer (Image : Type) where
  read : String → Image
  warpBox : Image → List (Int × Int) → Nat → Nat → (Int × Int × Int) → Image
  read_and_fit : String → Nat → Nat → (Int × Int × Int) → Image
  augment : Option (Image → Image)

/-- A random fill color (the three components of
`np.random.randint(low=0, high=255, size=3)`). -/
abbrev Cval := Int × Int × Int

/-- The generator's state between two iterations of
`for index in itertools.cycle(range(len(labels)))`. -/
structure GenState where
  /-- the heap of label lists -/
  store : Store
  /-- address of the private working copy made by `labels.copy()` -/
  labelsRef : Nat
  /-- `len(labels)` at construction: the cycle length -/
  K : Nat
  /-- the next value of the cyclic index -/
  index : Nat
  /-- number of shuffles performed so far (indexes the shuffle oracle) -/
  epoch : Nat
  /-- number of entries visited so far (indexes the raw-randomness oracle) -/
  visit : Nat
deriving Repr

/-- Generator construction: copy the caller's list into a fresh cell and set
up the cyclic index. -/
def genInit (store : Store) (callerRef : Nat) : GenState :=
  let content := storeRead store callerRef
  { store := store ++ [content], labelsRef := store.length,
    K := content.length, index := 0, epoch := 0, visit := 0 }

def defaultEntry : Entry := { filepath := "", box := none, text := "" }

/-- One iteration of the generator's loop body at the current index:
shuffle when the index is 0, read the entry, draw a fresh fill color, render
the image, filter the text against the alphabet, and either skip (empty
filtered text) or augment-and-emit.  Returns
`(optional emission, (visited entry, drawn color), next state)`.
`perms` is the shuffle oracle (indexed by shuffle epoch) and `rands` the raw
randomness for the fill color (indexed by visit count). -/
def genStep {Image : Type} (R : Renderer Image) (height width : Nat)
    (alphabet : List Char) (perms : Nat → List Entry → List Entry)
    (rands : Nat → Nat × Nat × Nat) (s : GenState) :
    Option (Image × String) × (Entry × Cval) × GenState :=
  let store1 :=
    if s.index = 0 then
      storeWrite s.store s.labelsRef (perms s.epoch (storeRead s.store s.labelsRef))
    else s.store
  let epoch1 := if s.index = 0 then s.epoch + 1 else s.epoch
  let e := (storeRead store1 s.labelsRef).getD s.index defaultEntry
  let r := rands s.visit
  let cval : Cval := (npRandint 0 255 r.1, npRandint 0 255 r.2.1, npRandint 0 255 r.2.2)
  let image :=
    match e.box with
    | some b => R.warpBox (R.read e.filepath) b height width cval
    | none => R.read_and_fit e.filepath width height cval
  let t := pyFilter alphabet e.text
  let s' : GenState :=
    { store := store1, labelsRef := s.labelsRef, K := s.K,
      index := (s.index + 1) % s.K, epoch := epoch1, visit := s.visit + 1 }
  if t = "" then (none, (e, cval), s')
  else
    let image2 := match R.augment with | some f => f image | none => image
    (some (image2, t), (e, cval), s')

/-- Run `n` loop iterations of the generator, collecting the visited entries
(with their fill colors) and the emitted samples.  When `K = 0` the loop over
`itertools.cycle(range(0))` has an empty body and the generator terminates at
once. -/
def runGen {Image : Type} (R : Renderer Image) (height width : Nat)
    (alphabet : List Char) (perms : Nat → List Entry → List Entry)
    (rands : Nat → Nat × Nat × Nat) :
    Nat → GenState → List (Entry × Cval) × List (Image × String) × GenState
  | 0, s => ([], [], s)
  | n + 1, s =>
    if s.K = 0 then ([], [], s)
    else
      let step := genStep R height width alphabet perms rands s
      let rest := runGen R height width alphabet perms rands n step.2.2
      (step.2.1 :: rest.1,
       (match step.1 with
        | some p => p :: rest.2.1
        | none => rest.2.1),
       rest.2.2)

/-- The generator's current working list. -/
def genLabels (s : GenState) : List Entry := storeRead s.store s.labelsRef

/-! ### Shared concrete instances used by witnesses and counterexamples -/

/-- A trivial renderer over `Unit` images. -/
def unitRenderer : Renderer Unit :=
  { read := fun _ => (), warpBox := fun _ _ _ _ _ => (),
    read_and_fit := fun _ _ _ _ => (), augment := none }

/-- The identity shuffle oracle (a legitimate permutation). -/
def idPerms : Nat → List Entry → List Entry := fun _ l => l

/-- A constant raw-randomness oracle. -/
def zeroRands : Nat → Nat × Nat × Nat := fun _ => (0, 0, 0)

def entryA : Entry := { filepath := "a.png", box := none, text := "ab" }

def entryB : Entry := { filepath := "b.png", box := none, text := "xyz" }

/-! ## Parser lemmas -/

theorem splitOnChar_ne_nil (sep : Char) : ∀ cs : List Char, splitOnChar sep cs ≠ [] := by
  intro cs
  cases cs with
  | nil => simp [splitOnChar]
  | cons c cs =>
    simp only [splitOnChar]
    split
    · simp
    · split <;> simp

theorem joinComma_splitOnChar : ∀ cs : List Char, joinComma (splitOnChar ',' cs) = cs := by
  intro cs
  induction cs with
  | nil => rfl
  | cons c cs ih =>
    obtain ⟨g, gs, hgs⟩ : ∃ g gs, splitOnChar ',' cs = g :: gs := by
      cases h : splitOnChar ',' cs with
      | nil => exact absurd h (splitOnChar_ne_nil ',' cs)
      | cons g gs => exact ⟨g, gs, rfl⟩
    rw [hgs] at ih
    simp only [splitOnChar, hgs]
    by_cases hc : c = ','
    · subst hc
      rw [if_pos rfl]
      cases gs with
      | nil => simp only [joinComma] at ih ⊢; rw [ih]; rfl
      | cons g2 gs2 => simp only [joinComma] at ih ⊢; rw [ih]; rfl
    · rw [if_neg hc]
      cases gs with
      | nil => simp only [joinComma] at ih ⊢; rw [ih]
      | cons g2 gs2 =>
        simp only [joinComma] at ih ⊢
        rw [List.cons_append, ih]

theorem splitOnChar_append_of_not_mem :
    ∀ (fname rest : List Char), (∀ c ∈ fname, c ≠ ',') →
      splitOnChar ',' (fname ++ ',' :: rest) = fname :: splitOnChar ',' rest := by
  intro fname
  induction fname with
  | nil =>
    intro rest _
    simp [splitOnChar]
  | cons c fs ih =>
    intro rest h
    have hc : c ≠ ',' := h c (List.mem_cons_self c fs)
    have ihr := ih rest (fun x hx => h x (List.mem_cons_of_mem c hx))
    simp only [List.cons_append, splitOnChar, List.append_eq, ihr, if_neg hc]

/-! ## Store lemmas -/

theorem storeRead_storeWrite_self {st : Store} {r : Nat} (v : List Entry)
    (h : r < st.length) : storeRead (storeWrite st r v) r = v := by
  simp [storeRead, storeWrite, List.getD_eq_getElem?_getD, List.getElem?_set_self h]

theorem storeRead_storeWrite_ne (st : Store) {r r' : Nat} (v : List Entry)
    (h : r' ≠ r) : storeRead (storeWrite st r' v) r = storeRead st r := by
  simp [storeRead, storeWrite, List.getD_eq_getElem?_getD, List.getElem?_set_ne h]

theorem storeRead_append_left {st : Store} {r : Nat} (st' : Store)
    (h : r < st.length) : storeRead (st ++ st') r = storeRead st r := by
  simp [storeRead, List.getD_eq_getElem?_getD, List.getElem?_append_left h]

theorem storeRead_of_le {st : Store} {r : Nat} (h : st.length ≤ r) :
    storeRead st r = [] :=
  List.getD_eq_default st [] h

/-! ## Structural lemmas about one generator step -/

theorem genStep_state {Image : Type} (R : Renderer Image) (hh ww : Nat)
    (a : List Char) (perms : Nat → List Entry → List Entry)
    (rands : Nat → Nat × Nat × Nat) (s : GenState) :
    (genStep R hh ww a perms rands s).2.2 =
      { store := if s.index = 0 then
                   storeWrite s.store s.labelsRef (perms s.epoch (storeRead s.store s.labelsRef))
                 else s.store,
        labelsRef := s.labelsRef, K := s.K, index := (s.index + 1) % s.K,
        epoch := if s.index = 0 then s.epoch + 1 else s.epoch,
        visit := s.visit + 1 } := by
  simp only [genStep]
  split <;> split <;> rfl

theorem genStep_visit {Image : Type} (R : Renderer Image) (hh ww : Nat)
    (a : List Char) (perms : Nat → List Entry → List Entry)
    (rands : Nat → Nat × Nat × Nat) (s : GenState) :
    (genStep R hh ww a perms rands s).2.1.1 =
      (storeRead (if s.index = 0 then
          storeWrite s.store s.labelsRef (perms s.epoch (storeRead s.store s.labelsRef))
        else s.store) s.labelsRef).getD s.index defaultEntry := by
  simp only [genStep]
  split <;> split <;> rfl

theorem genStep_cval {Image : Type} (R : Renderer Image) (hh ww : Nat)
    (a : List Char) (perms : Nat → List Entry → List Entry)
    (rands : Nat → Nat × Nat × Nat) (s : GenState) :
    (genStep R hh ww a perms rands s).2.1.2 =
      (npRandint 0 255 (rands s.visit).1, npRandint 0 255 (rands s.visit).2.1,
       npRandint 0 255 (rands s.visit).2.2) := by
  simp only [genStep]
  split <;> split <;> rfl

theorem genStep_emit_text {Image : Type} (R : Renderer Image) (hh ww : Nat)
    (a : List Char) (perms : Nat → List Entry → List Entry)
    (rands : Nat → Nat × Nat × Nat) (s : GenState) :
    (genStep R hh ww a perms rands s).1.map Prod.snd =
      (if pyFilter a ((genStep R hh ww a perms rands s).2.1.1).text = "" then none
       else some (pyFilter a ((genStep R hh ww a perms rands s).2.1.1).text)) := by
  simp only [genStep]
  split <;> split <;> simp_all

theorem genStep_some_text {Image : Type} (R : Renderer Image) (hh ww : Nat)
    (a : List Char) (perms : Nat → List Entry → List Entry)
    (rands : Nat → Nat × Nat × Nat) (s : GenState) (img : Image) (t : String)
    (he : (genStep R hh ww a perms rands s).1 = some (img, t)) :
    t = pyFilter a ((genStep R hh ww a perms rands s).2.1.1).text ∧ t ≠ "" := by
  have hm := congrArg (Option.map Prod.snd) he
  rw [genStep_emit_text R hh ww a perms rands s] at hm
  by_cases hc : pyFilter a ((genStep R hh ww a perms rands s).2.1.1).text = ""
  · rw [if_pos hc] at hm
    simp at hm
  · rw [if_neg hc] at hm
    simp only [Option.map_some'] at hm
    injection hm with hm1
    exact ⟨hm1.symm, fun ht => hc (ht ▸ hm1)⟩

theorem genStep_skip {Image : Type} (R : Renderer Image) (hh ww : Nat)
    (a : List Char) (perms : Nat → List Entry → List Entry)
    (rands : Nat → Nat × Nat × Nat) (s : GenState)
    (hc : pyFilter a ((genStep R hh ww a perms rands s).2.1.1).text = "") :
    (genStep R hh ww a perms rands s).1 = none := by
  have hm := genStep_emit_text R hh ww a perms rands s
  rw [if_pos hc] at hm
  exact Option.map_eq_none'.mp hm

theorem genStep_store_frame {Image : Type} (R : Renderer Image) (hh ww : Nat)
    (a : List Char) (perms : Nat → List Entry → List Entry)
    (rands : Nat → Nat × Nat × Nat) (s : GenState) (r : Nat)
    (hr : r ≠ s.labelsRef) :
    storeRead (genStep R hh ww a perms rands s).2.2.store r = storeRead s.store r := by
  rw [genStep_state]
  by_cases h0 : s.index = 0
  · simp only [h0, if_pos rfl]
    exact storeRead_storeWrite_ne s.store _ (fun e => hr e.symm)
  · simp only [if_neg h0]

theorem runGen_store_frame {Image : Type} (R : Renderer Image) (hh ww : Nat)
    (a : List Char) (perms : Nat → List Entry → List Entry)
    (rands : Nat → Nat × Nat × Nat) :
    ∀ (n : Nat) (s : GenState) (r : Nat), r ≠ s.labelsRef →
      storeRead (runGen R hh ww a perms rands n s).2.2.store r = storeRead s.store r ∧
      (runGen R hh ww a perms rands n s).2.2.labelsRef = s.labelsRef := by
  intro n
  induction n with
  | zero => intro s r _; exact ⟨rfl, rfl⟩
  | succ n ih =>
    intro s r hr
    by_cases hK : s.K = 0
    · simp [runGen, hK]
    · simp only [runGen, if_neg hK]
      have hlab : (genStep R hh ww a perms rands s).2.2.labelsRef = s.labelsRef := by
        rw [genStep_state]
      have h1 := ih (genStep R hh ww a perms rands s).2.2 r (by rw [hlab]; exact hr)
      refine ⟨?_, ?_⟩
      · rw [h1.1, genStep_store_frame R hh ww a perms rands s r hr]
      · rw [h1.2, hlab]

theorem runGen_succ {Image : Type} (R : Renderer Image) (hh ww : Nat)
    (a : List Char) (perms : Nat → List Entry → List Entry)
    (rands : Nat → Nat × Nat × Nat) (n : Nat) (s : GenState) (hK : ¬ s.K = 0) :
    runGen R hh ww a perms rands (n + 1) s =
      ((genStep R hh ww a perms rands s).2.1 ::
         (runGen R hh ww a perms rands n (genStep R hh ww a perms rands s).2.2).1,
       (match (genStep R hh ww a perms rands s).1 with
        | some p =>
          p :: (runGen R hh ww a perms rands n (genStep R hh ww a perms rands s).2.2).2.1
        | none =>
          (runGen R hh ww a perms rands n (genStep R hh ww a perms rands s).2.2).2.1),
       (runGen R hh ww a perms rands n (genStep R hh ww a perms rands s).2.2).2.2) := by
  conv_lhs => rw [runGen]
  rw [if_neg hK]

theorem runGen_no_wrap {Image : Type} (R : Renderer Image) (hh ww : Nat)
    (a : List Char) (perms : Nat → List Entry → List Entry)
    (rands : Nat → Nat × Nat × Nat) :
    ∀ (j : Nat) (s : GenState), (genLabels s).length = s.K → 1 ≤ s.index →
      s.index + j ≤ s.K →
      (runGen R hh ww a perms rands j s).1.map Prod.fst =
        ((genLabels s).drop s.index).take j ∧
      (runGen R hh ww a perms rands j s).2.2.store = s.store ∧
      (runGen R hh ww a perms rands j s).2.2.labelsRef = s.labelsRef := by
  intro j
  induction j with
  | zero => intro s _ _ _; exact ⟨by simp [runGen], rfl, rfl⟩
  | succ j ih =>
    intro s hlen h1 h2
    have hK : ¬ s.K = 0 := by omega
    have hiK : s.index < s.K := by omega
    have hne0 : s.index ≠ 0 := by omega
    have hstate := genStep_state R hh ww a perms rands s
    have hvisit := genStep_visit R hh ww a perms rands s
    rw [if_neg hne0] at hstate hvisit
    have hstore' : (genStep R hh ww a perms rands s).2.2.store = s.store := by
      rw [hstate]
    have hlab' : (genStep R hh ww a perms rands s).2.2.labelsRef = s.labelsRef := by
      rw [hstate]
    have hK' : (genStep R hh ww a perms rands s).2.2.K = s.K := by rw [hstate]
    have hglab' : genLabels (genStep R hh ww a perms rands s).2.2 = genLabels s := by
      simp [genLabels, hstore', hlab']
    have hgetvis : (genStep R hh ww a perms rands s).2.1.1 =
        (genLabels s).getD s.index defaultEntry := hvisit
    have hdrop : (genLabels s).drop s.index =
        (genLabels s)[s.index] :: (genLabels s).drop (s.index + 1) :=
      List.drop_eq_getElem_cons (by omega)
    have hgetD : (genLabels s).getD s.index defaultEntry = (genLabels s)[s.index] :=
      List.getD_eq_getElem _ _ (by omega)
    cases j with
    | zero =>
      simp only [runGen, if_neg hK]
      refine ⟨?_, hstore', hlab'⟩
      simp only [List.map_cons, List.map_nil, hgetvis, hgetD, hdrop, List.take_succ_cons,
        List.take_zero]
    | succ j =>
      have hidx' : (genStep R hh ww a perms rands s).2.2.index = s.index + 1 := by
        rw [hstate]
        simp only
        exact Nat.mod_eq_of_lt (by omega)
      have hrec := ih (genStep R hh ww a perms rands s).2.2
        (by rw [hglab', hK']; exact hlen)
        (by rw [hidx']; omega)
        (by rw [hidx', hK']; omega)
      rw [runGen_succ R hh ww a perms rands (j + 1) s hK]
      refine ⟨?_, by simp only; rw [hrec.2.1, hstore'],
        by simp only; rw [hrec.2.2, hlab']⟩
      simp only [List.map_cons, hgetvis, hgetD]
      rw [hrec.1, hglab', hidx', hdrop, List.take_succ_cons]

theorem runGen_pass {Image : Type} (R : Renderer Image) (hh ww : Nat)
    (a : List Char) (perms : Nat → List Entry → List Entry)
    (rands : Nat → Nat × Nat × Nat) (s : GenState)
    (h0 : s.index = 0) (hK : 0 < s.K) (hlen : (genLabels s).length = s.K)
    (hperm : ∀ l, (perms s.epoch l).Perm l) :
    (runGen R hh ww a perms rands s.K s).1.map Prod.fst =
      perms s.epoch (genLabels s) := by
  obtain ⟨k, hk⟩ : ∃ k, s.K = k + 1 := ⟨s.K - 1, by omega⟩
  have hr : s.labelsRef < s.store.length := by
    by_contra hge
    have hnil : genLabels s = [] := storeRead_of_le (by omega)
    rw [hnil] at hlen
    simp at hlen
    omega
  have hstate := genStep_state R hh ww a perms rands s
  have hvisit := genStep_visit R hh ww a perms rands s
  rw [if_pos h0] at hstate hvisit
  have hwrite : storeRead
      (storeWrite s.store s.labelsRef (perms s.epoch (storeRead s.store s.labelsRef)))
      s.labelsRef = perms s.epoch (storeRead s.store s.labelsRef) :=
    storeRead_storeWrite_self _ hr
  have hC'len : (perms s.epoch (genLabels s)).length = s.K := by
    rw [(hperm (genLabels s)).length_eq]
    exact hlen
  have hvis : (genStep R hh ww a perms rands s).2.1.1 =
      (perms s.epoch (genLabels s)).getD 0 defaultEntry := by
    rw [hvisit, h0]
    rw [show storeRead s.store s.labelsRef = genLabels s from rfl] at hwrite ⊢
    rw [hwrite]
  have hglab' : genLabels (genStep R hh ww a perms rands s).2.2 =
      perms s.epoch (genLabels s) := by
    rw [hstate]
    simp only [genLabels]
    exact hwrite
  have hK' : (genStep R hh ww a perms rands s).2.2.K = s.K := by rw [hstate]
  have hidx' : (genStep R hh ww a perms rands s).2.2.index = 1 % s.K := by
    rw [hstate, h0]
  have hKne : ¬ s.K = 0 := by omega
  have hC'get : (perms s.epoch (genLabels s)).getD 0 defaultEntry =
      (perms s.epoch (genLabels s))[0] :=
    List.getD_eq_getElem _ _ (by omega)
  have hC'cons : perms s.epoch (genLabels s) =
      (perms s.epoch (genLabels s))[0] :: (perms s.epoch (genLabels s)).drop 1 := by
    conv_lhs => rw [show perms s.epoch (genLabels s) =
      (perms s.epoch (genLabels s)).drop 0 from rfl]
    exact List.drop_eq_getElem_cons (by omega)
  rw [hk]
  simp only [runGen, if_neg hKne]
  cases k with
  | zero =>
    simp only [runGen, List.map_cons, List.map_nil, hvis, hC'get]
    have hnil : (perms s.epoch (genLabels s)).drop 1 = [] := by
      apply List.drop_eq_nil_of_le
      omega
    rw [hnil] at hC'cons
    exact hC'cons.symm
  | succ k =>
    have hidx1 : (genStep R hh ww a perms rands s).2.2.index = 1 := by
      rw [hidx']
      exact Nat.mod_eq_of_lt (by omega)
    have hrec := runGen_no_wrap R hh ww a perms rands (k + 1)
      (genStep R hh ww a perms rands s).2.2
      (by rw [hglab', hK']; exact hC'len)
      (by rw [hidx1])
      (by rw [hidx1, hK']; omega)
    simp only [List.map_cons, hvis, hC'get]
    rw [hrec.1, hglab', hidx1]
    have htake : ((perms s.epoch (genLabels s)).drop 1).take (k + 1) =
        (perms s.epoch (genLabels s)).drop 1 := by
      apply List.take_of_length_le
      rw [List.length_drop, hC'len, hk]
      omega
    rw [htake, ← hC'cons]

theorem runGen_samples_nonempty {Image : Type} (R : Renderer Image) (hh ww : Nat)
    (a : List Char) (perms : Nat → List Entry → List Entry)
    (rands : Nat → Nat × Nat × Nat) :
    ∀ (n : Nat) (s : GenState) (p : Image × String),
      p ∈ (runGen R hh ww a perms rands n s).2.1 → p.2 ≠ "" := by
  intro n
  induction n with
  | zero => intro s p hp; simp [runGen] at hp
  | succ n ih =>
    intro s p hp
    by_cases hK : s.K = 0
    · simp [runGen, hK] at hp
    · simp only [runGen, if_neg hK] at hp
      rcases hemit : (genStep R hh ww a perms rands s).1 with _ | q
      · rw [hemit] at hp
        exact ih _ p hp
      · rw [hemit] at hp
        rcases List.mem_cons.mp hp with hp | hp
        · obtain ⟨img, t⟩ := q
          have := genStep_some_text R hh ww a perms rands s img t hemit
          rw [hp]
          exact this.2
        · exact ih _ p hp

/-! ## Additional helper lemmas for the COCO-Text claims -/

theorem assembleCoco_filepath_mem (L : CocoLabels) (dir : String)
    (ids fns : List String) (lo eo : Bool) (e : Entry)
    (he : e ∈ assembleCoco L dir ids fns lo eo) :
    e.filepath ∈ ids.map (fun i => osPathJoin dir (fns.getD (ids.indexOf i) "")) := by
  simp only [assembleCoco, List.mem_flatMap] at he
  obtain ⟨i, hi, hein⟩ := he
  simp only [List.mem_filterMap] at hein
  obtain ⟨annIdx, _, hsome⟩ := hein
  simp only [List.mem_map]
  refine ⟨i, hi, ?_⟩
  split at hsome
  · cases hsome
  · split at hsome
    · cases hsome
    · injection hsome with h1
      rw [← h1]

theorem assembleCoco_distinct_filepaths (L : CocoLabels) (dir : String)
    (ids fns : List String) (lo eo : Bool) :
    ((assembleCoco L dir ids fns lo eo).map Entry.filepath).toFinset.card ≤
      ids.length := by
  have hsub : ∀ x ∈ (assembleCoco L dir ids fns lo eo).map Entry.filepath,
      x ∈ ids.map (fun i => osPathJoin dir (fns.getD (ids.indexOf i) "")) := by
    intro x hx
    simp only [List.mem_map] at hx
    obtain ⟨e, he, rfl⟩ := hx
    exact assembleCoco_filepath_mem L dir ids fns lo eo e he
  calc ((assembleCoco L dir ids fns lo eo).map Entry.filepath).toFinset.card
      ≤ (ids.map (fun i => osPathJoin dir (fns.getD (ids.indexOf i) ""))).toFinset.card :=
        Finset.card_le_card
          (fun x hx => List.mem_toFinset.mpr (hsub x (List.mem_toFinset.mp hx)))
    _ ≤ (ids.map (fun i => osPathJoin dir (fns.getD (ids.indexOf i) ""))).length :=
        List.toFinset_card_le _
    _ = ids.length := List.length_map _ _

/-! ## Concrete data used by witnesses and counterexamples -/

def emptyCocoLabels : CocoLabels := ⟨[], [], []⟩

/-- A small COCO labels object whose imgs mapping lists id "2" before id "1"
(both in the train set, both with one legible english annotation). -/
def exCocoLabels : CocoLabels :=
  { imgs := [("2", ⟨"train", "b.jpg"⟩), ("1", ⟨"train", "a.jpg"⟩)],
    imgToAnns := [("2", [0]), ("1", [1])],
    anns := [("0", ⟨[0, 0, 1, 1], "two", "english", "legible"⟩),
             ("1", ⟨[2, 2, 3, 3], "one", "english", "legible"⟩)] }

def exEntryTwo : Entry :=
  { filepath := "/c/coco-text/images/b.jpg", box := some [(0, 0), (1, 1)], text := "two" }

def exEntryOne : Entry :=
  { filepath := "/c/coco-text/images/a.jpg", box := some [(2, 2), (3, 3)], text := "one" }

/-- Like `exCocoLabels` but image "1" has no annotations, so a limit of 2
keeps 2 images yet yields a single dataset entry. -/
def exCocoSparse : CocoLabels :=
  { imgs := [("2", ⟨"train", "b.jpg"⟩), ("1", ⟨"train", "a.jpg"⟩)],
    imgToAnns := [("2", [0]), ("1", [])],
    anns := [("0", ⟨[0, 0, 1, 1], "two", "english", "legible"⟩)] }

/-- Lexicographic comparison of character lists (code-point order). -/
def charListLe : List Char → List Char → Bool
  | [], _ => true
  | _ :: _, [] => false
  | c :: cs, d :: ds => if c = d then charListLe cs ds else decide (c < d)

def insertSorted (x : String) : List String → List String
  | [] => [x]
  | y :: ys => if charListLe x.toList y.toList then x :: y :: ys else y :: insertSorted x ys

/-- Insertion sort on id strings: the "sorted image-ID list" of the claim. -/
def sortIds (l : List String) : List String := l.foldr insertSorted []

/-! ## Claim C1 (corrected) -/

/-- C1 counterexample: the claim says *every* dataset-fetching entry point
rejects an unrecognized split with an `InvalidArgument` error, but
`get_born_digital_recognizer_dataset` performs no split validation at all:
with the unrecognized split "validation" it raises nothing and silently
returns an empty dataset (performing no I/O). -/
theorem born_digital_no_split_validation :
    get_born_digital_recognizer_dataset "validation" none [] [] =
      ([], Except.ok []) := rfl

/-- C1 amended: `get_cocotext_recognizer_dataset` validates its split against
{train, val, trainval} and fails immediately (before any I/O action and
before any cache path is used) with an assertion error — the spec's
`InvalidArgument`; `get_born_digital_recognizer_dataset`, however, performs
no split validation: an unrecognized split performs no I/O and returns an
empty dataset instead of failing. -/
theorem split_validation_per_entry_point :
    (∀ (L : CocoLabels) (split : String) (cache_dir : Option String)
        (limit : Option Nat) (lo eo rr : Bool) (comp : List Action → List Action),
      split ∉ cocoSplits →
      get_cocotext_recognizer_dataset L split cache_dir limit lo eo rr comp =
        ([], Except.error (PyError.assertionError ("Unsupported split: " ++ split)))) ∧
    (∀ (split : String) (cache_dir : Option String) (trainGt testGt : List String),
      split ≠ "train" → split ≠ "test" → split ≠ "traintest" →
      get_born_digital_recognizer_dataset split cache_dir trainGt testGt =
        ([], Except.ok [])) := by
  constructor
  · intro L split cache_dir limit lo eo rr comp h
    simp [get_cocotext_recognizer_dataset, h]
  · intro split cache_dir trainGt testGt h1 h2 h3
    have hb1 : ¬ (split = "train" ∨ split = "traintest") := by
      rintro (h | h) <;> simp_all
    have hb2 : ¬ (split = "test" ∨ split = "traintest") := by
      rintro (h | h) <;> simp_all
    simp [get_born_digital_recognizer_dataset, hb1, hb2]

/-- C1 amended, witness at the concrete split "xyz". -/
theorem split_validation_per_entry_point_witness :
    get_cocotext_recognizer_dataset emptyCocoLabels "xyz" none none false false false id =
      ([], Except.error (PyError.assertionError ("Unsupported split: " ++ "xyz"))) ∧
    get_born_digital_recognizer_dataset "xyz" none [] [] = ([], Except.ok []) :=
  ⟨split_validation_per_entry_point.1 emptyCocoLabels "xyz" none none false false false id
      (by decide),
   split_validation_per_entry_point.2 "xyz" none [] []
      (by decide) (by decide) (by decide)⟩

/-! ## Claim C2 (confirmed) -/

/-- C2: every emitted sample's text is the visited entry's text filtered to
the characters of the alphabet, in order, and is non-empty; an entry whose
filtered text is empty is skipped (no emission) while the cyclic index still
advances; no consumer ever observes an empty-text sample over any run; and
alphabet {a, b, c} on "abcxyz" filters to "abc". -/
theorem generator_alphabet_filtering {Image : Type} (R : Renderer Image)
    (hh ww : Nat) (a : List Char) (perms : Nat → List Entry → List Entry)
    (rands : Nat → Nat × Nat × Nat) (s : GenState) :
    (∀ (img : Image) (t : String),
      (genStep R hh ww a perms rands s).1 = some (img, t) →
      t = pyFilter a ((genStep R hh ww a perms rands s).2.1.1).text ∧ t ≠ "") ∧
    (pyFilter a ((genStep R hh ww a perms rands s).2.1.1).text = "" →
      (genStep R hh ww a perms rands s).1 = none ∧
      (genStep R hh ww a perms rands s).2.2.index = (s.index + 1) % s.K) ∧
    (∀ (n : Nat) (s0 : GenState) (p : Image × String),
      p ∈ (runGen R hh ww a perms rands n s0).2.1 → p.2 ≠ "") ∧
    pyFilter ['a', 'b', 'c'] "abcxyz" = "abc" := by
  refine ⟨fun img t he => genStep_some_text R hh ww a perms rands s img t he,
    fun hc => ⟨genStep_skip R hh ww a perms rands s hc, by rw [genStep_state]⟩,
    runGen_samples_nonempty R hh ww a perms rands, by decide⟩

/-- C2 witness: on a one-entry dataset whose text "xyz" filters to empty
under alphabet {a, b, c}, the step emits nothing and the index advances. -/
theorem generator_alphabet_filtering_witness :
    (genStep unitRenderer 4 4 ['a', 'b', 'c'] idPerms zeroRands
        (genInit [[entryB]] 0)).1 = none ∧
    (genStep unitRenderer 4 4 ['a', 'b', 'c'] idPerms zeroRands
        (genInit [[entryB]] 0)).2.2.index = 0 ∧
    pyFilter ['a', 'b', 'c'] "abcxyz" = "abc" := by
  have h := generator_alphabet_filtering unitRenderer 4 4 ['a', 'b', 'c'] idPerms
    zeroRands (genInit [[entryB]] 0)
  have h2 := h.2.1 (by decide)
  exact ⟨h2.1, h2.2.trans (by decide), h.2.2.2⟩

/-! ## Claim C3 (confirmed) -/

/-- C3: the working copy is reshuffled exactly when the cyclic index is at
position 0 — a step at a non-zero index leaves the working list unchanged,
a step at index 0 replaces it by its shuffle — and within one pass of K
index steps over a dataset of size K the visited entries are exactly the
(shuffled) working list in its fixed order, hence each entry is visited
exactly once per pass (a permutation of the dataset). -/
theorem generator_shuffle_only_on_wrap {Image : Type} (R : Renderer Image)
    (hh ww : Nat) (a : List Char) (perms : Nat → List Entry → List Entry)
    (rands : Nat → Nat × Nat × Nat) :
    (∀ s : GenState, s.index ≠ 0 →
      genLabels (genStep R hh ww a perms rands s).2.2 = genLabels s) ∧
    (∀ s : GenState, s.index = 0 → s.labelsRef < s.store.length →
      genLabels (genStep R hh ww a perms rands s).2.2 =
        perms s.epoch (genLabels s)) ∧
    (∀ s : GenState, s.index = 0 → 0 < s.K → (genLabels s).length = s.K →
      (∀ l, (perms s.epoch l).Perm l) →
      (runGen R hh ww a perms rands s.K s).1.map Prod.fst =
        perms s.epoch (genLabels s) ∧
      ((runGen R hh ww a perms rands s.K s).1.map Prod.fst).Perm (genLabels s)) := by
  refine ⟨?_, ?_, ?_⟩
  · intro s h
    have hstate := genStep_state R hh ww a perms rands s
    rw [if_neg h] at hstate
    simp [genLabels, hstate]
  · intro s h0 hr
    have hstate := genStep_state R hh ww a perms rands s
    rw [if_pos h0] at hstate
    simp only [genLabels, hstate]
    exact storeRead_storeWrite_self _ hr
  · intro s h0 hK hlen hperm
    have hkey := runGen_pass R hh ww a perms rands s h0 hK hlen hperm
    exact ⟨hkey, by rw [hkey]; exact hperm _⟩

/-- C3 witness: one full pass over a two-entry dataset with the identity
shuffle visits the two entries in order, each exactly once. -/
theorem generator_shuffle_only_on_wrap_witness :
    (runGen unitRenderer 8 8 ['a', 'b'] idPerms zeroRands 2
        (genInit [[entryA, entryB]] 0)).1.map Prod.fst = [entryA, entryB] ∧
    ((runGen unitRenderer 8 8 ['a', 'b'] idPerms zeroRands 2
        (genInit [[entryA, entryB]] 0)).1.map Prod.fst).Perm [entryA, entryB] := by
  have h := (generator_shuffle_only_on_wrap unitRenderer 8 8 ['a', 'b'] idPerms
      zeroRands).2.2 (genInit [[entryA, entryB]] 0) rfl (by decide) (by decide)
      (fun l => List.Perm.refl l)
  exact ⟨h.1.trans (by decide), h.2⟩

/-! ## Claim C4 (corrected) -/

/-- C4 counterexample: the fill color is drawn with
`np.random.randint(low=0, high=255)`, whose upper bound is exclusive, so —
contrary to the claim that each component ranges over [0, 255] inclusive —
no raw random value can ever make a component equal 255. -/
theorem fill_color_255_unattainable :
    ¬ ∃ raw : Nat,
      ((genStep unitRenderer 32 32 ['a'] idPerms (fun _ => (raw, raw, raw))
          (genInit [[entryA]] 0)).2.1.2).1 = 255 := by
  rintro ⟨raw, hraw⟩
  rw [genStep_cval] at hraw
  simp only [npRandint] at hraw
  rw [show ((255 : Int) - 0).toNat = 255 from rfl] at hraw
  omega

/-- C4 amended: for every visited entry the generator draws a fresh fill
color of 3 components, each `np.random.randint(low=0, high=255)` drawn from
the visit-indexed random source — i.e. uniform over the half-open range
[0, 255): every component lies in [0, 254] and every value in [0, 254] is
attainable, but 255 is not. -/
theorem fill_color_range {Image : Type} (R : Renderer Image) (hh ww : Nat)
    (a : List Char) (perms : Nat → List Entry → List Entry)
    (rands : Nat → Nat × Nat × Nat) (s : GenState) :
    (genStep R hh ww a perms rands s).2.1.2 =
      (npRandint 0 255 (rands s.visit).1, npRandint 0 255 (rands s.visit).2.1,
       npRandint 0 255 (rands s.visit).2.2) ∧
    (∀ (low high : Int) (raw : Nat), low < high →
      low ≤ npRandint low high raw ∧ npRandint low high raw < high) ∧
    (∀ v : Int, 0 ≤ v → v < 255 → ∃ raw : Nat, npRandint 0 255 raw = v) := by
  refine ⟨genStep_cval R hh ww a perms rands s, ?_, ?_⟩
  · intro low high raw hlh
    simp only [npRandint]
    have hpos : 0 < (high - low).toNat := by omega
    have hm : raw % (high - low).toNat < (high - low).toNat := Nat.mod_lt _ hpos
    omega
  · intro v h0 h255
    refine ⟨v.toNat, ?_⟩
    simp only [npRandint]
    rw [show ((255 : Int) - 0).toNat = 255 from rfl]
    omega

/-- C4 amended, witness: with raw randomness 0 the drawn color is (0, 0, 0);
the draw with raw value 300 lies in [0, 255); and 254 is attainable. -/
theorem fill_color_range_witness :
    (genStep unitRenderer 2 2 ['a'] idPerms zeroRands
        (genInit [[entryA]] 0)).2.1.2 = ((0 : Int), (0 : Int), (0 : Int)) ∧
    ((0 : Int) ≤ npRandint 0 255 300 ∧ npRandint 0 255 300 < 255) ∧
    (∃ raw : Nat, npRandint 0 255 raw = 254) := by
  have h := fill_color_range unitRenderer 2 2 ['a'] idPerms zeroRands
    (genInit [[entryA]] 0)
  exact ⟨h.1.trans (by decide), h.2.1 0 255 300 (by decide),
    h.2.2 254 (by decide) (by decide)⟩

/-! ## Claim C5 (confirmed) -/

/-- C5: for a line `fname,rest` whose first field has no comma and whose
remainder, once stripped, is a quoted label, the Born-Digital parser yields
the filename joined with the image root, region `None`, and the label with
its surrounding quotes removed; in particular the line
`img1.jpg,"hello, world"` with image root `/data` parses to
`("/data/img1.jpg", None, "hello, world")`. -/
theorem born_digital_parser_line (folder : String) (fname rest t : List Char)
    (hcomma : ∀ c ∈ fname, c ≠ ',')
    (hstrip : pyStrip (fname ++ ',' :: rest) = fname ++ ',' :: rest)
    (hquote : pyStrip rest = '"' :: (t ++ ['"'])) :
    parseLineChars folder (fname ++ ',' :: rest) =
      { filepath := osPathJoin folder (String.mk fname), box := none,
        text := String.mk t } ∧
    read_born_digital_labels_file ["img1.jpg,\"hello, world\""] "/data" =
      [{ filepath := "/data/img1.jpg", box := none, text := "hello, world" }] := by
  constructor
  · simp only [parseLineChars, hstrip,
      splitOnChar_append_of_not_mem fname rest hcomma, List.headD_cons,
      List.tail_cons, joinComma_splitOnChar, hquote]
    congr 1
    simp [slice1m1]
  · decide

/-- C5 witness at the concrete example line. -/
theorem born_digital_parser_line_witness :
    parseLineChars "/data" ("img1.jpg".toList ++ ',' :: "\"hello, world\"".toList) =
      { filepath := "/data/img1.jpg", box := none, text := "hello, world" } ∧
    read_born_digital_labels_file ["img1.jpg,\"hello, world\""] "/data" =
      [{ filepath := "/data/img1.jpg", box := none, text := "hello, world" }] := by
  have h := born_digital_parser_line "/data" "img1.jpg".toList
    "\"hello, world\"".toList "hello, world".toList
    (by decide) (by decide) (by decide)
  exact ⟨h.1.trans (by decide), h.2⟩

/-! ## Claim C6 (confirmed) -/

/-- C6: with a positive record cap N, the COCO-Text assembler truncates the
selected-image-ID list to its first N elements before resolving any
annotations, so the returned dataset draws its entries from at most N
distinct images (the number of distinct file paths is at most N); the cap
bounds images, not annotations, and the dataset may hold fewer than N
entries. -/
theorem coco_limit_truncates_ids (L : CocoLabels) (split : String)
    (cache_dir : Option String) (lo eo rr : Bool)
    (comp : List Action → List Action) (N : Nat)
    (hsplit : split ∈ cocoSplits) (hN : 0 < N) :
    ∃ out,
      (get_cocotext_recognizer_dataset L split cache_dir (some N) lo eo rr comp).2 =
        Except.ok out ∧
      cocoOutDataset out =
        assembleCoco (applyLimit L (selectedIdsOf L split) (some N)).2
          (cocoImagesDir cache_dir) ((selectedIdsOf L split).take N)
          (cocoFilenames (applyLimit L (selectedIdsOf L split) (some N)).2
            ((selectedIdsOf L split).take N)) lo eo ∧
      ((cocoOutDataset out).map Entry.filepath).toFinset.card ≤ N := by
  obtain ⟨m, rfl⟩ : ∃ m, N = m + 1 := ⟨N - 1, by omega⟩
  have hcard : ∀ L2 : CocoLabels,
      ((assembleCoco L2 (cocoImagesDir cache_dir)
          ((selectedIdsOf L split).take (m + 1))
          (cocoFilenames L2 ((selectedIdsOf L split).take (m + 1))) lo
          eo).map Entry.filepath).toFinset.card ≤ m + 1 := by
    intro L2
    calc ((assembleCoco L2 (cocoImagesDir cache_dir)
            ((selectedIdsOf L split).take (m + 1))
            (cocoFilenames L2 ((selectedIdsOf L split).take (m + 1))) lo
            eo).map Entry.filepath).toFinset.card
        ≤ ((selectedIdsOf L split).take (m + 1)).length :=
          assembleCoco_distinct_filepaths L2 (cocoImagesDir cache_dir)
            ((selectedIdsOf L split).take (m + 1))
            (cocoFilenames L2 ((selectedIdsOf L split).take (m + 1))) lo eo
      _ ≤ m + 1 := by
          rw [List.length_take]
          omega
  cases rr with
  | false =>
    refine ⟨CocoOut.plain
      (assembleCoco (applyLimit L (selectedIdsOf L split) (some (m + 1))).2
        (cocoImagesDir cache_dir) ((selectedIdsOf L split).take (m + 1))
        (cocoFilenames (applyLimit L (selectedIdsOf L split) (some (m + 1))).2
          ((selectedIdsOf L split).take (m + 1))) lo eo), ?_, rfl, ?_⟩
    · simp only [get_cocotext_recognizer_dataset, if_pos hsplit]
      rfl
    · exact hcard _
  | true =>
    refine ⟨CocoOut.withRaw
      (assembleCoco (applyLimit L (selectedIdsOf L split) (some (m + 1))).2
        (cocoImagesDir cache_dir) ((selectedIdsOf L split).take (m + 1))
        (cocoFilenames (applyLimit L (selectedIdsOf L split) (some (m + 1))).2
          ((selectedIdsOf L split).take (m + 1))) lo eo)
      (applyLimit L (selectedIdsOf L split) (some (m + 1))).2
      (cocoImagesDir cache_dir), ?_, rfl, ?_⟩
    · simp only [get_cocotext_recognizer_dataset, if_pos hsplit]
      rfl
    · exact hcard _

/-- C6 witness: on `exCocoSparse` with limit 2, both selected images are
kept but the dataset holds a single entry (fewer than N = 2). -/
theorem coco_limit_truncates_ids_witness :
    (∃ out,
      (get_cocotext_recognizer_dataset exCocoSparse "train" (some "/c") (some 2)
          false false false id).2 = Except.ok out ∧
      cocoOutDataset out =
        assembleCoco (applyLimit exCocoSparse (selectedIdsOf exCocoSparse "train")
            (some 2)).2 (cocoImagesDir (some "/c"))
          ((selectedIdsOf exCocoSparse "train").take 2)
          (cocoFilenames (applyLimit exCocoSparse
              (selectedIdsOf exCocoSparse "train") (some 2)).2
            ((selectedIdsOf exCocoSparse "train").take 2)) false false ∧
      ((cocoOutDataset out).map Entry.filepath).toFinset.card ≤ 2) ∧
    (get_cocotext_recognizer_dataset exCocoSparse "train" (some "/c") (some 2)
        false false false id).2 = Except.ok (CocoOut.plain [exEntryTwo]) :=
  ⟨coco_limit_truncates_ids exCocoSparse "train" (some "/c") false false false id 2
      (by decide) (by decide), rfl⟩

/-! ## Claim C7 (corrected) -/

/-- C7 counterexample: on `exCocoLabels` the assembled dataset's order
follows the imgs-mapping insertion order (id "2" before id "1"), which is
not the sorted image-ID order: sorting the selected ids yields ["1", "2"]
and assembling in that sorted order produces a different dataset order. -/
theorem coco_order_not_sorted :
    (get_cocotext_recognizer_dataset exCocoLabels "train" (some "/c") none
        false false false id).2 =
      Except.ok (CocoOut.plain [exEntryTwo, exEntryOne]) ∧
    sortIds (selectedIdsOf exCocoLabels "train") = ["1", "2"] ∧
    assembleCoco exCocoLabels (cocoImagesDir (some "/c"))
      (sortIds (selectedIdsOf exCocoLabels "train"))
      (cocoFilenames exCocoLabels (sortIds (selectedIdsOf exCocoLabels "train")))
      false false = [exEntryOne, exEntryTwo] ∧
    ([exEntryTwo, exEntryOne] : List Entry) ≠ [exEntryOne, exEntryTwo] :=
  ⟨rfl, by decide, by decide, by decide⟩

/-- C7 amended: the assembled dataset is deterministic — its value does not
depend on the completion order of the concurrent per-image fetches — and
its order follows the filtered image-ID list in the order the ids appear in
the labels' imgs mapping (its insertion order), not in sorted order. -/
theorem coco_order_deterministic (L : CocoLabels) (split : String)
    (cache_dir : Option String) (limit : Option Nat) (lo eo rr : Bool)
    (comp1 comp2 : List Action → List Action) :
    (get_cocotext_recognizer_dataset L split cache_dir limit lo eo rr comp1).2 =
      (get_cocotext_recognizer_dataset L split cache_dir limit lo eo rr comp2).2 ∧
    (split ∈ cocoSplits →
      ∃ out,
        (get_cocotext_recognizer_dataset L split cache_dir limit lo eo rr comp1).2 =
          Except.ok out ∧
        cocoOutDataset out =
          assembleCoco (applyLimit L (selectedIdsOf L split) limit).2
            (cocoImagesDir cache_dir)
            (applyLimit L (selectedIdsOf L split) limit).1
            (cocoFilenames (applyLimit L (selectedIdsOf L split) limit).2
              (applyLimit L (selectedIdsOf L split) limit).1) lo eo) := by
  constructor
  · by_cases hs : split ∈ cocoSplits
    · simp only [get_cocotext_recognizer_dataset, if_pos hs]
    · simp only [get_cocotext_recognizer_dataset, if_neg hs]
  · intro hs
    cases rr with
    | false =>
      refine ⟨CocoOut.plain
        (assembleCoco (applyLimit L (selectedIdsOf L split) limit).2
          (cocoImagesDir cache_dir) (applyLimit L (selectedIdsOf L split) limit).1
          (cocoFilenames (applyLimit L (selectedIdsOf L split) limit).2
            (applyLimit L (selectedIdsOf L split) limit).1) lo eo), ?_, rfl⟩
      simp only [get_cocotext_recognizer_dataset, if_pos hs]
      rfl
    | true =>
      refine ⟨CocoOut.withRaw
        (assembleCoco (applyLimit L (selectedIdsOf L split) limit).2
          (cocoImagesDir cache_dir) (applyLimit L (selectedIdsOf L split) limit).1
          (cocoFilenames (applyLimit L (selectedIdsOf L split) limit).2
            (applyLimit L (selectedIdsOf L split) limit).1) lo eo)
        (applyLimit L (selectedIdsOf L split) limit).2
        (cocoImagesDir cache_dir), ?_, rfl⟩
      simp only [get_cocotext_recognizer_dataset, if_pos hs]
      rfl

/-- C7 amended, witness: two different fetch-completion orders (identity and
reversal of the download fan-out) give the same result. -/
theorem coco_order_deterministic_witness :
    (get_cocotext_recognizer_dataset exCocoLabels "train" (some "/c") none
        false false false id).2 =
      (get_cocotext_recognizer_dataset exCocoLabels "train" (some "/c") none
        false false false List.reverse).2 ∧
    (get_cocotext_recognizer_dataset exCocoLabels "train" (some "/c") none
        false false false id).2 =
      Except.ok (CocoOut.plain [exEntryTwo, exEntryOne]) := by
  have h := coco_order_deterministic exCocoLabels "train" (some "/c") none
    false false false id List.reverse
  have _ := h.2 (by decide)
  exact ⟨h.1, rfl⟩

/-! ## Claim C8 (confirmed) -/

/-- C8: however many pulls are made, the caller's original dataset list is
left unchanged (same entries, same order): the generator only ever shuffles
the private copy it allocated at construction, never the list it was
handed. -/
theorem generator_preserves_caller_list {Image : Type} (R : Renderer Image)
    (hh ww : Nat) (a : List Char) (perms : Nat → List Entry → List Entry)
    (rands : Nat → Nat × Nat × Nat) (store : Store) (callerRef n : Nat)
    (hcall : callerRef < store.length) :
    storeRead (runGen R hh ww a perms rands n
        (genInit store callerRef)).2.2.store callerRef =
      storeRead store callerRef := by
  have hne : callerRef ≠ (genInit store callerRef).labelsRef := by
    simp only [genInit]
    omega
  have h1 := (runGen_store_frame R hh ww a perms rands n (genInit store callerRef)
    callerRef hne).1
  rw [h1]
  show storeRead (store ++ [storeRead store callerRef]) callerRef = _
  exact storeRead_append_left _ hcall

/-- C8 witness: three pulls with a reversing shuffle leave the caller's list
intact. -/
theorem generator_preserves_caller_list_witness :
    storeRead (runGen unitRenderer 1 1 ['a', 'b'] (fun _ l => l.reverse) zeroRands 3
        (genInit [[entryA, entryB]] 0)).2.2.store 0 = [entryA, entryB] := by
  have h := generator_preserves_caller_list unitRenderer 1 1 ['a', 'b']
    (fun _ l => l.reverse) zeroRands [[entryA, entryB]] 0 3 (by decide)
  rw [h]
  rfl

/-! ## Claim C9 (confirmed) -/

/-- C9: handed an empty dataset, the generator's cycle length is 0, so the
loop over `itertools.cycle(range(0))` never runs: no matter how many steps
are attempted, nothing is visited and nothing is emitted — the stream is
finite and empty rather than an infinite loop. -/
theorem generator_empty_dataset {Image : Type} (R : Renderer Image)
    (hh ww : Nat) (a : List Char) (perms : Nat → List Entry → List Entry)
    (rands : Nat → Nat × Nat × Nat) (store : Store) (callerRef : Nat)
    (hempty : storeRead store callerRef = []) :
    (genInit store callerRef).K = 0 ∧
    ∀ n, runGen R hh ww a perms rands n (genInit store callerRef) =
      ([], [], genInit store callerRef) := by
  have hK : (genInit store callerRef).K = 0 := by
    simp [genInit, hempty]
  refine ⟨hK, fun n => ?_⟩
  cases n with
  | zero => rfl
  | succ n => simp [runGen, hK]

/-- C9 witness. -/
theorem generator_empty_dataset_witness :
    (genInit [[]] 0).K = 0 ∧
    runGen unitRenderer 2 3 ['a'] idPerms zeroRands 5 (genInit [[]] 0) =
      ([], [], genInit [[]] 0) := by
  have h := generator_empty_dataset unitRenderer 2 3 ['a'] idPerms zeroRands
    [[]] 0 rfl
  exact ⟨h.1, h.2 5⟩

/-! ## Claim C10 (confirmed) -/

/-- C10: `limit = 0` is falsy for Python's `if limit:`, so passing
`limit = some 0` to the COCO-Text assembler applies no cap at all and the
whole call is identical to passing `limit = none` — 0 means "no limit",
not "zero images". -/
theorem coco_limit_zero_means_no_limit (L : CocoLabels) (split : String)
    (cache_dir : Option String) (lo eo rr : Bool)
    (comp : List Action → List Action) :
    get_cocotext_recognizer_dataset L split cache_dir (some 0) lo eo rr comp =
      get_cocotext_recognizer_dataset L split cache_dir none lo eo rr comp := rfl

end KerasOcr
